import Mathlib

/-!
Verification of the Model 6 (CBV baseline integral) pipeline of
`src/Model6.cpp`: bolus detection, baseline calibration and correction,
concentration conversion, integration and white-matter normalization.

Conventions of the embedding:
* machine doubles become `ℚ` (every operation the claims touch is
  field arithmetic and order comparison);
* C `int` indices become `ℤ`; curves are total functions `ℤ → ℚ`
  (a read outside the intended range is a read of whatever the function
  returns there, mirroring how C reads whatever memory holds);
* the C `for` loops become structurally recursive functions on an explicit
  fuel that equals the number of remaining iterations, so every definition
  evaluates by kernel reduction;
* a fallible routine returns `Option` (`none` = the `goto func_exit`
  failure path, `some v` = success with the value written by `Write`).
-/

namespace Model6

/-! ## FindBolusPosition (src/Model6.cpp lines 319-362) -/

/-- Result of `FindBolusPosition`: the two indices written through
`pBolusStart` and `pBolusEnd`. -/
structure BolusPos where
  bStart : ℤ
  bEnd : ℤ
deriving DecidableEq, Repr

/-- The peak loop of `FindBolusPosition`: `msd = wTac[0]; b_peak = 0;`
then for `t = 1 .. wNumTms-1`, if `wTac[t] < msd` take `(t, wTac[t])`.
Returns `(b_peak, msd)`. -/
def findPeak (wTac : ℤ → ℚ) (wNumTms : ℤ) : ℤ × ℚ :=
  (List.range' 1 (wNumTms.toNat - 1)).foldl
    (fun acc (k : ℕ) => if wTac (k : ℤ) < acc.2 then ((k : ℤ), wTac (k : ℤ)) else acc)
    (0, wTac 0)

/-- The backward start scan of `FindBolusPosition`:
`for (b_start=b_peak; b_start>pre_N; b_start--) if (wTac[b_start-1]>cutoff) break;`.
The fuel argument equals `(t - preN).toNat`, the exact number of iterations
the C loop can still make from counter value `t`. -/
def bStartGo (wTac : ℤ → ℚ) (cutoff : ℚ) (preN : ℤ) : ℕ → ℤ → ℤ
  | 0, t => t
  | fuel + 1, t =>
      if preN < t then
        if cutoff < wTac (t - 1) then t else bStartGo wTac cutoff preN fuel (t - 1)
      else t

/-- The forward end scan of `FindBolusPosition`:
`for (b_end=b_peak+2; b_end<Last; b_end++) { if (wTac[b_end]>mx) mx=wTac[b_end];
if ((wTac[b_end]>cutoff) || (wTac[b_end]<(mx-noise))) break; }`.
Returns the loop counter at exit (the stop index). The fuel equals
`(last - t).toNat`. -/
def bEndGo (wTac : ℤ → ℚ) (cutoff noise : ℚ) : ℕ → ℚ → ℤ → ℤ
  | 0, _, t => t
  | fuel + 1, mx, t =>
      let mx' := if mx < wTac t then wTac t else mx
      if cutoff < wTac t ∨ wTac t < mx' - noise then t
      else bEndGo wTac cutoff noise fuel mx' (t + 1)

/-- `FindBolusPosition(wTac, wNumTms, noise, pre_bl, post_bl, &b_start, &b_end)`.
`pre_N` and `post_N` are the module statics set by `M6_ModelInit`, passed
explicitly here. Mirrors src/Model6.cpp lines 319-362 exactly: peak = global
minimum, backward scan bounded by `pre_N`, forward scan from `peak+2` bounded
by `Last = wNumTms - post_N`, and `b_end = min(b_end-1, Last-1)` at the end. -/
def findBolusPosition (wTac : ℤ → ℚ) (wNumTms : ℤ) (noise pre_bl post_bl : ℚ)
    (preN postN : ℤ) : BolusPos :=
  let pk := findPeak wTac wNumTms
  let bStart := bStartGo wTac (pre_bl - noise) preN (pk.1 - preN).toNat pk.1
  let last := wNumTms - postN
  let stop := bEndGo wTac (post_bl - noise) noise (last - (pk.1 + 2)).toNat pk.2 (pk.1 + 2)
  ⟨bStart, min (stop - 1) (last - 1)⟩

/-! ## Baseline calibration in M6_ModelInit (src/Model6.cpp lines 182-232) -/

/-- `PRE_N_THR` of src/Model6.cpp line 132. -/
def PRE_N_THR : ℚ := 0.95

/-- `POST_N_THR` of src/Model6.cpp line 133. -/
def POST_N_THR : ℚ := 0.95

/-- `PASS_START` of src/Model6.cpp line 122. -/
def PASS_START : ℤ := 2

/-- The index of `GlobalTac` that the calibration view `wTac = GlobalTac+PASS_START`
reads at working offset `t`. -/
def calibReadIndex (t : ℤ) : ℤ := PASS_START + t

/-- The minimum loop of `M6_ModelInit`: `MinSi = wTac[0]` then
`MinSi = min(MinSi, wTac[t])` for `t = 1 .. wNumTms-1`. -/
def m6MinSi (wTac : ℤ → ℚ) (wNumTms : ℤ) : ℚ :=
  (List.range' 1 (wNumTms.toNat - 1)).foldl
    (fun m (k : ℕ) => min m (wTac (k : ℤ))) (wTac 0)

/-- The window-length scan of `M6_ModelInit`:
`for (i=1; i<n; i++) if (f[i]-MinSi<Thr) break;` with the loop counter
returned at exit. Fuel equals `(n - i).toNat`. The `post_N` scan is this
same loop run on the reversed view `j ↦ wTac (n - 1 - j)`
(`wTacEnd[-post_N]` in the source). -/
def preNGo (f : ℤ → ℚ) (minSi thr : ℚ) (n : ℤ) : ℕ → ℤ → ℤ
  | 0, i => i
  | fuel + 1, i =>
      if i < n then
        if f i - minSi < thr then i else preNGo f minSi thr n fuel (i + 1)
      else i

/-- The `pre_N`/`post_N` derivation of `M6_ModelInit` (src/Model6.cpp lines
186-207), acting on the working view `wTac` of length `wNumTms`:
`SA = wTac[0]`, `SB = wTac[wNumTms-1]`, `MinSi = min`, forward scan with
threshold `(SA-MinSi)*PRE_N_THR`, backward scan with `(SB-MinSi)*POST_N_THR`. -/
def m6CalibWindows (wTac : ℤ → ℚ) (wNumTms : ℤ) : ℤ × ℤ :=
  let SA := wTac 0
  let SB := wTac (wNumTms - 1)
  let minSi := m6MinSi wTac wNumTms
  let preN := preNGo wTac minSi ((SA - minSi) * PRE_N_THR) wNumTms (wNumTms - 1).toNat 1
  let postN := preNGo (fun j => wTac (wNumTms - 1 - j)) minSi ((SB - minSi) * POST_N_THR)
      wNumTms (wNumTms - 1).toNat 1
  (preN, postN)

/-! ## External collaborators and series state -/

/-- The external routines `M6_ModelFunc`/`M6_ModelInit` call whose code is
outside this repository's files: `PR_ArrStats` (curve view and count to
(mean, stdev)), `IsAir_ByMin` (curve and threshold to background flag) and
the `log` used in the concentration conversion. They are kept abstract:
the claims under verification do not depend on their internals. -/
structure M6Ext where
  arrStats : (ℤ → ℚ) → ℤ → ℚ × ℚ
  isAirByMin : (ℤ → ℚ) → ℚ → Bool
  logFn : ℚ → ℚ

/-- The module-static state `M6_ModelInit` leaves for `M6_ModelFunc`:
`AirThresh`, `SkipTimes`, `NumTms` (global), `pre_N`, `post_N`,
`WhiteMatterNorm` and the relative time array `Tarr`. -/
structure M6State where
  airThresh : ℚ
  skipTimes : ℤ
  numTms : ℤ
  preN : ℤ
  postN : ℤ
  whiteMatterNorm : ℚ
  tarr : ℤ → ℚ

/-- Modelled from the spec: `PR_MakeRelativeArr` (src calls it to build `Tarr`;
its code is not under src/). Spec section 2, TimeAxis: "relative = absolute
shifted to start at 0". -/
def makeRelativeArr (absTarr : ℤ → ℚ) : ℤ → ℚ := fun t => absTarr t - absTarr 0

/-- Modelled from the spec: `CalculateIntegral` (called at src/Model6.cpp line
454; its code is not under src/). Spec section 6: trapezoidal rule on parallel
value/time arrays, a single point integrating to 0:
sum over `i` in `[1, n)` of `(vals[i]+vals[i-1])/2 * (times[i]-times[i-1])`. -/
def calculateIntegral (vals times : ℤ → ℚ) (n : ℤ) : ℚ :=
  (List.range' 1 (n.toNat - 1)).foldl
    (fun s (k : ℕ) => s + (vals (k : ℤ) + vals ((k : ℤ) - 1)) / 2 *
      (times (k : ℤ) - times ((k : ℤ) - 1))) 0

/-- The white-matter normalization part of `M6_ModelInit` (src/Model6.cpp lines
212-227). With one ROI the source sets `WhiteMatterNorm = ONE`, declares
`double Integral` without initializing it, leaves the call
`M6_ModelFunc(Tac,p)` commented out, and then sets
`WhiteMatterNorm = ONE/Integral`: the divisor is the uninitialized stack
value, modelled by the explicit parameter `uninitIntegral`. `none` is the
`xmsg` failure path (more than one ROI, or an air ROI curve; note the source
passes `NumTms` as the threshold of that air check). -/
def m6InitNorm (ext : M6Ext) (roiTacs : List (ℤ → ℚ)) (numTms : ℤ)
    (uninitIntegral : ℚ) : Option ℚ :=
  match roiTacs with
  | [] => some 1
  | [roi] =>
      if ext.isAirByMin (fun t => |roi t|) (numTms : ℚ) then none
      else some (1 / uninitIntegral)
  | _ => none

/-- `M6_ModelInit` (src/Model6.cpp lines 172-233): sets `AirThresh =
FP[0]*demp_NoiseLevel`, `SkipTimes = (int)FP[1]` (the integer cast is taken
as the `skipTimes` argument), `wNumTms = NumTms - SkipTimes`, runs the
calibration scans on the view `wTac = GlobalTac + PASS_START`, and computes
`WhiteMatterNorm`. `none` models the failure exits. -/
def m6ModelInit (ext : M6Ext) (globalTac absTarr : ℤ → ℚ) (numTms : ℤ)
    (fp0 dempNoiseLevel : ℚ) (skipTimes : ℤ) (roiTacs : List (ℤ → ℚ))
    (uninitIntegral : ℚ) : Option M6State :=
  match m6InitNorm ext roiTacs numTms uninitIntegral with
  | none => none
  | some wmn =>
      let wNumTms := numTms - skipTimes
      let pq := m6CalibWindows (fun t => globalTac (calibReadIndex t)) wNumTms
      some ⟨fp0 * dempNoiseLevel, skipTimes, numTms, pq.1, pq.2, wmn,
        makeRelativeArr absTarr⟩

/-! ## The per-voxel pipeline M6_ModelFunc (src/Model6.cpp lines 407-461) -/

/-- The slope `sf = (post_bl-pre_bl)/(wTarr[b_end]-b_stime)` of the baseline
correction (src/Model6.cpp line 435). -/
def m6SlopeFactor (wTarr : ℤ → ℚ) (pre_bl post_bl : ℚ) (bStart bEnd : ℤ) : ℚ :=
  (post_bl - pre_bl) / (wTarr bEnd - wTarr bStart)

/-- The baseline-corrected curve `CorrTac` (src/Model6.cpp lines 437-439).
The source writes `CorrTac[t] = wTac[t] - sf*(wTarr[t]-b_stime)` for `t` in
`[b_start, b_end]` only; every other entry of the stack buffer stays
uninitialized, modelled as `none`. -/
def m6CorrTac (wTac wTarr : ℤ → ℚ) (pre_bl post_bl : ℚ) (bStart bEnd : ℤ)
    (t : ℤ) : Option ℚ :=
  if bStart ≤ t ∧ t ≤ bEnd then
    some (wTac t - m6SlopeFactor wTarr pre_bl post_bl bStart bEnd * (wTarr t - wTarr bStart))
  else none

/-- The concentration conversion applied to one sample (src/Model6.cpp lines
447-449): `tmp = CorrTac[t]/S0; if (tmp>0.01 && tmp<ONE) Cx[t] = -log(tmp);
else Cx[t] = ZERO;`. `logFn` abstracts the C `log`. -/
def concConvert (logFn : ℚ → ℚ) (S0 v : ℚ) : ℚ :=
  if 0.01 < v / S0 ∧ v / S0 < 1 then -(logFn (v / S0)) else 0

/-- The baseline statistics of `M6_ModelFunc` (src/Model6.cpp lines 424-426):
`pre_bl = PR_ArrStats(wTac, pre_N, &noise)` and
`post_bl = PR_ArrStats(wTac+(wNumTms-post_N), post_N, NULL)`.
Returns `(pre_bl, noise, post_bl)`. -/
def m6Stats (ext : M6Ext) (st : M6State) (tac : ℤ → ℚ) : ℚ × ℚ × ℚ :=
  let wTac := fun t => tac (st.skipTimes + t)
  let wNumTms := st.numTms - st.skipTimes
  let pn := ext.arrStats wTac st.preN
  (pn.1, pn.2, (ext.arrStats (fun t => wTac (wNumTms - st.postN + t)) st.postN).1)

/-- The bolus window `M6_ModelFunc` computes at src/Model6.cpp line 430. -/
def m6Bolus (ext : M6Ext) (st : M6State) (tac : ℤ → ℚ) : BolusPos :=
  let s := m6Stats ext st tac
  findBolusPosition (fun t => tac (st.skipTimes + t)) (st.numTms - st.skipTimes)
    s.2.1 s.1 s.2.2 st.preN st.postN

/-- `M6_ModelFunc` up to and including the integral `Intg` (src/Model6.cpp
lines 411-454), before the normalization factor is applied. `none` models the
two `xnz` failure exits: the air check and `b_start >= b_end`. The
concentration curve is evaluated on the integrated range `[b_start, b_end]`,
where `CorrTac` is initialized (outside it the source reads uninitialized
stack values that never reach the integral). -/
def m6VoxelIntegral (ext : M6Ext) (st : M6State) (tac : ℤ → ℚ) : Option ℚ :=
  if ext.isAirByMin tac st.airThresh then none
  else
    let wTac := fun t => tac (st.skipTimes + t)
    let wTarr := fun t => st.tarr (st.skipTimes + t)
    let s := m6Stats ext st tac
    let bp := m6Bolus ext st tac
    if bp.bEnd ≤ bp.bStart then none
    else
      let Cx := fun t =>
        concConvert ext.logFn s.1 ((m6CorrTac wTac wTarr s.1 s.2.2 bp.bStart bp.bEnd t).getD 0)
      some (calculateIntegral (fun i => Cx (bp.bStart + i)) (fun i => wTarr (bp.bStart + i))
        (bp.bEnd - bp.bStart + 1))

/-- `M6_ModelFunc` (src/Model6.cpp lines 407-461): on success the value
written to `OutParm` is `Intg * WhiteMatterNorm` (line 456); `none` means the
function returned `false` without writing. -/
def m6ModelFunc (ext : M6Ext) (st : M6State) (tac : ℤ → ℚ) : Option ℚ :=
  (m6VoxelIntegral ext st tac).map (fun intg => intg * st.whiteMatterNorm)

/-! ## Specification-side descriptions (written from spec.md, for C1) -/

/-- The maximum of `init` and the values of `wTac` on the integer interval
`[a, b]` (empty when `b < a`): the running maximum `mx` of the spec's forward
search after index `b` has been absorbed. -/
def runMax (wTac : ℤ → ℚ) (init : ℚ) (a b : ℤ) : ℚ :=
  (List.range' 0 (b + 1 - a).toNat).foldl
    (fun m (k : ℕ) => max m (wTac (a + (k : ℤ)))) init

/-- Spec section 4.4 step 1: `peak` is the index of the global minimum of the
working curve (the trough). -/
def PeakSpec (wTac : ℤ → ℚ) (wNumTms peak : ℤ) : Prop :=
  0 ≤ peak ∧ (peak = 0 ∨ peak < wNumTms) ∧
    ∀ t, 0 ≤ t → t < wNumTms → wTac peak ≤ wTac t

/-- Spec section 4.4 step 2: starting at `peak`, walk backward while
`working[t-1] <= preMean - noise`; stop at the first `t` where
`working[t-1] > preMean - noise`, or when `t` reaches `pre_N` (lower bound).
So either `s` is the largest index in `(pre_N, peak]` whose predecessor
exceeds the cutoff, or no such index exists and the walk bottoms out at the
lower bound (at `peak` itself when the walk starts at or below `pre_N`). -/
def BolusStartSpec (wTac : ℤ → ℚ) (noise preMean : ℚ) (preN peak s : ℤ) : Prop :=
  (preN < s ∧ s ≤ peak ∧ preMean - noise < wTac (s - 1) ∧
    ∀ t, s < t → t ≤ peak → wTac (t - 1) ≤ preMean - noise) ∨
  (s = min peak preN ∧ ∀ t, preN < t → t ≤ peak → wTac (t - 1) ≤ preMean - noise)

/-- Spec section 4.4 step 3, the stopping condition of the forward search at
index `j`: either `working[j] > postMean - noise` or `working[j] < mx - noise`
where `mx` is the running maximum of the scanned samples (seeded with the
peak value `msd`, updated with `working[j]` before the test). -/
def BolusEndCond (wTac : ℤ → ℚ) (noise postMean msd : ℚ) (a j : ℤ) : Prop :=
  postMean - noise < wTac j ∨ wTac j < runMax wTac msd a j - noise

/-- Spec section 4.4 step 3: starting at `peak + 2` and never proceeding past
`last = workingLength - post_N`, the scan stops at the first index satisfying
`BolusEndCond` (or exhausts the range), and the final end index is
`min(stopIndex - 1, lastAllowedIndex - 1)`. -/
def BolusEndSpec (wTac : ℤ → ℚ) (noise postMean msd : ℚ) (peak last e : ℤ) : Prop :=
  ∃ stop, e = min (stop - 1) (last - 1) ∧ peak + 2 ≤ stop ∧
    ((stop < last ∧ BolusEndCond wTac noise postMean msd (peak + 2) stop ∧
        ∀ j, peak + 2 ≤ j → j < stop → ¬BolusEndCond wTac noise postMean msd (peak + 2) j) ∨
     (stop = max (peak + 2) last ∧
        ∀ j, peak + 2 ≤ j → j < last → ¬BolusEndCond wTac noise postMean msd (peak + 2) j))

/-! ## Specification-side description of the calibration (for C7) -/

/-- Spec section 4.1: `MinSi` is the minimum of the working curve. -/
def MinSiSpec (wTac : ℤ → ℚ) (wNumTms : ℤ) (m : ℚ) : Prop :=
  (∀ t, 0 ≤ t → t < wNumTms → m ≤ wTac t) ∧ ∃ t, 0 ≤ t ∧ t < wNumTms ∧ m = wTac t

/-- Spec section 4.1: the scan result `r` on view `f` over `[1, n)` with
threshold `thr` is the first index at which `f i - minSi < thr`, or the whole
working length `n` when no index fails the threshold. -/
def CalibScanSpec (f : ℤ → ℚ) (minSi thr : ℚ) (n r : ℤ) : Prop :=
  (1 ≤ r ∧ r < n ∧ f r - minSi < thr ∧
    ∀ j, 1 ≤ j → j < r → ¬(f j - minSi < thr)) ∨
  (r = n ∧ ∀ j, 1 ≤ j → j < n → ¬(f j - minSi < thr))

/-! ## Concrete inputs used by counterexamples and witnesses -/

/-- A flat working curve: every sample equals 10. -/
def flatTen : ℤ → ℚ := fun _ => 10

/-- A working curve whose global minimum sits at index 0 (a leading dip),
otherwise flat at 10. -/
def dipAtZero : ℤ → ℚ := fun t => if t = 0 then 1 else 10

/-- External collaborators used by the concrete scenarios: the array stats
return the first sample as mean and 0 as stdev (exact for the constant
windows involved), nothing is classified as air, and the log stub is never
reached (all concrete ratios fall on the clamped branch). -/
def cexExt : M6Ext := ⟨fun f _ => (f 0, 0), fun _ _ => false, fun _ => 0⟩

/-- A global curve with a clean dip: value 2 on indices 4..7, else 10. -/
def c5Global : ℤ → ℚ := fun i => if 4 ≤ i ∧ i ≤ 7 then 2 else 10

/-- A flat white-matter reference ROI curve at 10. -/
def c5Roi : ℤ → ℚ := fun _ => 10

/-- The series state produced by running `m6ModelInit` on `c5Global` with one
reference ROI (`c5Roi`), `NumTms = 10`, free parameters (20, 0),
`demp_NoiseLevel = 1`, absolute times `t`, and uninitialized stack value 2. -/
def c5State : M6State :=
  (m6ModelInit cexExt c5Global (fun t => (t : ℚ)) 10 20 1 0 [c5Roi] 2).getD
    ⟨0, 0, 0, 0, 0, 0, fun _ => 0⟩

/-- A second global curve for the out-of-bounds dependence pair: it agrees
with `flatTen` at 5 on every in-bounds index `0..5` of a 6-frame series and
differs only at index 7, two past the end. -/
def c10Beyond : ℤ → ℚ := fun i => if i = 7 then 0 else 5

/-- The other member of the pair: flat at 5 everywhere. -/
def c10Flat : ℤ → ℚ := fun _ => 5

/-! ## Loop-invariant lemmas for the scans -/

/-- Characterization of the backward start scan: from counter `t` with fuel
`(t - preN).toNat`, either it stops at the first index (walking down) whose
predecessor exceeds the cutoff, or no index in `(preN, t]` qualifies and it
bottoms out at `min t preN`. -/
theorem bStartGo_spec (wTac : ℤ → ℚ) (cutoff : ℚ) (preN : ℤ) :
    ∀ (fuel : ℕ) (t : ℤ), fuel = (t - preN).toNat →
      (preN < bStartGo wTac cutoff preN fuel t ∧ bStartGo wTac cutoff preN fuel t ≤ t ∧
        cutoff < wTac (bStartGo wTac cutoff preN fuel t - 1) ∧
        ∀ s, bStartGo wTac cutoff preN fuel t < s → s ≤ t → wTac (s - 1) ≤ cutoff) ∨
      (bStartGo wTac cutoff preN fuel t = min t preN ∧
        ∀ s, preN < s → s ≤ t → wTac (s - 1) ≤ cutoff) := by
  intro fuel
  induction fuel with
  | zero =>
      intro t hf
      have ht : t ≤ preN := by omega
      right
      refine ⟨?_, fun s h1 h2 => absurd h1 (by omega)⟩
      simp only [bStartGo]
      exact (min_eq_left ht).symm
  | succ fl ih =>
      intro t hf
      have ht : preN < t := by omega
      simp only [bStartGo, if_pos ht]
      by_cases hc : cutoff < wTac (t - 1)
      · rw [if_pos hc]
        exact Or.inl ⟨ht, le_refl t, hc, fun s h1 h2 => absurd h1 (by omega)⟩
      · rw [if_neg hc]
        rcases ih (t - 1) (by omega) with ⟨h1, h2, h3, h4⟩ | ⟨h1, h2⟩
        · refine Or.inl ⟨h1, by omega, h3, fun s hs1 hs2 => ?_⟩
          rcases eq_or_lt_of_le hs2 with heq | hlt
          · rw [heq]; exact not_lt.mp hc
          · exact h4 s hs1 (by omega)
        · refine Or.inr ⟨?_, fun s hs1 hs2 => ?_⟩
          · rw [h1, min_eq_right (by omega : preN ≤ t - 1),
              min_eq_right (by omega : preN ≤ t)]
          · rcases eq_or_lt_of_le hs2 with heq | hlt
            · rw [heq]; exact not_lt.mp hc
            · exact h2 s hs1 (by omega)

/-- A lower bound on the start scan: it never goes below `min t preN`. -/
theorem bStartGo_ge (wTac : ℤ → ℚ) (cutoff : ℚ) (preN : ℤ) :
    ∀ (fuel : ℕ) (t : ℤ), min t preN ≤ bStartGo wTac cutoff preN fuel t := by
  intro fuel
  induction fuel with
  | zero => intro t; simp only [bStartGo]; exact min_le_left t preN
  | succ fl ih =>
      intro t
      simp only [bStartGo]
      by_cases ht : preN < t
      · rw [if_pos ht]
        by_cases hc : cutoff < wTac (t - 1)
        · rw [if_pos hc]; exact min_le_left t preN
        · rw [if_neg hc]
          have := ih (t - 1)
          have hm : preN ≤ min (t - 1) preN := by omega
          omega
      · rw [if_neg ht]; exact min_le_left t preN

/-- Characterization of the calibration window scan `preNGo`: from counter `i`
with fuel `(n - i).toNat`, it stops at the first index in `[i, n)` that falls
below the threshold, or returns `max i n` when none does. -/
theorem preNGo_spec (f : ℤ → ℚ) (minSi thr : ℚ) (n : ℤ) :
    ∀ (fuel : ℕ) (i : ℤ), fuel = (n - i).toNat →
      i ≤ preNGo f minSi thr n fuel i ∧
      ((preNGo f minSi thr n fuel i < n ∧
          f (preNGo f minSi thr n fuel i) - minSi < thr ∧
          ∀ j, i ≤ j → j < preNGo f minSi thr n fuel i → ¬(f j - minSi < thr)) ∨
        (preNGo f minSi thr n fuel i = max i n ∧
          ∀ j, i ≤ j → j < n → ¬(f j - minSi < thr))) := by
  intro fuel
  induction fuel with
  | zero =>
      intro i hf
      have hn : n ≤ i := by omega
      simp only [preNGo]
      exact ⟨le_refl i, Or.inr ⟨(max_eq_left hn).symm,
        fun j h1 h2 => absurd h2 (by omega)⟩⟩
  | succ fl ih =>
      intro i hf
      have hn : i < n := by omega
      simp only [preNGo, if_pos hn]
      by_cases hc : f i - minSi < thr
      · rw [if_pos hc]
        exact ⟨le_refl i, Or.inl ⟨hn, hc, fun j h1 h2 => absurd h2 (by omega)⟩⟩
      · rw [if_neg hc]
        obtain ⟨hle, hch⟩ := ih (i + 1) (by omega)
        refine ⟨by omega, ?_⟩
        rcases hch with ⟨h1, h2, h3⟩ | ⟨h1, h2⟩
        · refine Or.inl ⟨h1, h2, fun j hj1 hj2 => ?_⟩
          rcases eq_or_lt_of_le hj1 with heq | hlt
          · rw [← heq]; exact hc
          · exact h3 j (by omega) hj2
        · refine Or.inr ⟨?_, fun j hj1 hj2 => ?_⟩
          · rw [h1, max_eq_right (by omega : i + 1 ≤ n), max_eq_right (by omega : i ≤ n)]
          · rcases eq_or_lt_of_le hj1 with heq | hlt
            · rw [← heq]; exact hc
            · exact h2 j (by omega) hj2

/-- `runMax` over an empty interval is its seed. -/
theorem runMax_base (wTac : ℤ → ℚ) (init : ℚ) (a b : ℤ) (h : b < a) :
    runMax wTac init a b = init := by
  have h0 : (b + 1 - a).toNat = 0 := by omega
  simp [runMax, h0]

/-- `runMax` absorbs the right endpoint of a nonempty interval. -/
theorem runMax_succ (wTac : ℤ → ℚ) (init : ℚ) (a b : ℤ) (h : a ≤ b) :
    runMax wTac init a b = max (runMax wTac init a (b - 1)) (wTac b) := by
  have h1 : (b + 1 - a).toNat = (b - 1 + 1 - a).toNat + 1 := by omega
  unfold runMax
  rw [h1, List.range'_concat, List.foldl_append]
  simp only [List.foldl_cons, List.foldl_nil, one_mul, Nat.zero_add, zero_add]
  rw [show a + ((b - 1 + 1 - a).toNat : ℤ) = b by omega]

/-- Characterization of the forward end scan: from counter `t` with fuel
`(last - t).toNat` and accumulator `mx` equal to the running maximum of the
already scanned samples, the scan stops at the first index in `[t, last)`
satisfying the stopping condition relative to the running maximum seeded at
`a`, or exhausts the range and returns `max t last`. -/
theorem bEndGo_spec (wTac : ℤ → ℚ) (cutoff noise : ℚ) (a last : ℤ) (msd : ℚ) :
    ∀ (fuel : ℕ) (t : ℤ) (mx : ℚ), fuel = (last - t).toNat → a ≤ t →
      mx = runMax wTac msd a (t - 1) →
      t ≤ bEndGo wTac cutoff noise fuel mx t ∧
      ((bEndGo wTac cutoff noise fuel mx t < last ∧
          (cutoff < wTac (bEndGo wTac cutoff noise fuel mx t) ∨
            wTac (bEndGo wTac cutoff noise fuel mx t) <
              runMax wTac msd a (bEndGo wTac cutoff noise fuel mx t) - noise) ∧
          ∀ j, t ≤ j → j < bEndGo wTac cutoff noise fuel mx t →
            ¬(cutoff < wTac j ∨ wTac j < runMax wTac msd a j - noise)) ∨
        (bEndGo wTac cutoff noise fuel mx t = max t last ∧
          ∀ j, t ≤ j → j < last →
            ¬(cutoff < wTac j ∨ wTac j < runMax wTac msd a j - noise))) := by
  intro fuel
  induction fuel with
  | zero =>
      intro t mx hf ha hmx
      have hl : last ≤ t := by omega
      simp only [bEndGo]
      exact ⟨le_refl t, Or.inr ⟨(max_eq_left hl).symm,
        fun j h1 h2 => absurd h1 (by omega)⟩⟩
  | succ fl ih =>
      intro t mx hf ha hmx
      have hl : t < last := by omega
      have hmx' : (if mx < wTac t then wTac t else mx) = runMax wTac msd a t := by
        rw [runMax_succ wTac msd a t ha, ← hmx]
        by_cases h : mx < wTac t
        · rw [if_pos h, max_eq_right h.le]
        · rw [if_neg h, max_eq_left (not_lt.mp h)]
      simp only [bEndGo]
      by_cases hc : cutoff < wTac t ∨ wTac t < (if mx < wTac t then wTac t else mx) - noise
      · rw [if_pos hc]
        rw [hmx'] at hc
        exact ⟨le_refl t, Or.inl ⟨hl, hc, fun j h1 h2 => absurd h2 (by omega)⟩⟩
      · rw [if_neg hc]
        rw [hmx'] at hc
        obtain ⟨hle, hch⟩ := ih (t + 1) (runMax wTac msd a t) (by omega) (by omega)
          (by rw [show t + 1 - 1 = t by omega])
        rw [hmx']
        refine ⟨by omega, ?_⟩
        rcases hch with ⟨h1, h2, h3⟩ | ⟨h1, h2⟩
        · refine Or.inl ⟨h1, h2, fun j hj1 hj2 => ?_⟩
          rcases eq_or_lt_of_le hj1 with heq | hlt
          · rw [← heq]; exact hc
          · exact h3 j (by omega) hj2
        · refine Or.inr ⟨?_, fun j hj1 hj2 => ?_⟩
          · rw [h1, max_eq_right (by omega : t + 1 ≤ last),
              max_eq_right (by omega : t ≤ last)]
          · rcases eq_or_lt_of_le hj1 with heq | hlt
            · rw [← heq]; exact hc
            · exact h2 j (by omega) hj2

/-- Invariants of the peak fold of `findPeak`: the accumulator always carries
the value of the curve at its index, never grows, bounds every scanned sample
from below, and its index either is the seed's or comes from the list. -/
theorem peakFold_spec (wTac : ℤ → ℚ) :
    ∀ (l : List ℕ) (acc : ℤ × ℚ), acc.2 = wTac acc.1 →
      (l.foldl (fun acc (k : ℕ) =>
          if wTac (k : ℤ) < acc.2 then ((k : ℤ), wTac (k : ℤ)) else acc) acc).2 =
        wTac (l.foldl (fun acc (k : ℕ) =>
          if wTac (k : ℤ) < acc.2 then ((k : ℤ), wTac (k : ℤ)) else acc) acc).1 ∧
      (l.foldl (fun acc (k : ℕ) =>
          if wTac (k : ℤ) < acc.2 then ((k : ℤ), wTac (k : ℤ)) else acc) acc).2 ≤ acc.2 ∧
      (∀ k ∈ l, (l.foldl (fun acc (k : ℕ) =>
          if wTac (k : ℤ) < acc.2 then ((k : ℤ), wTac (k : ℤ)) else acc) acc).2 ≤
        wTac (k : ℤ)) ∧
      ((l.foldl (fun acc (k : ℕ) =>
          if wTac (k : ℤ) < acc.2 then ((k : ℤ), wTac (k : ℤ)) else acc) acc).1 = acc.1 ∨
        ∃ k ∈ l, (l.foldl (fun acc (k : ℕ) =>
          if wTac (k : ℤ) < acc.2 then ((k : ℤ), wTac (k : ℤ)) else acc) acc).1 = (k : ℤ)) := by
  intro l
  induction l with
  | nil =>
      intro acc h
      exact ⟨h, le_refl _, by simp, Or.inl rfl⟩
  | cons k l ih =>
      intro acc h
      simp only [List.foldl_cons]
      by_cases hk : wTac (k : ℤ) < acc.2
      · rw [if_pos hk]
        obtain ⟨h1, h2, h3, h4⟩ := ih ((k : ℤ), wTac (k : ℤ)) rfl
        refine ⟨h1, le_trans h2 hk.le, fun j hj => ?_, ?_⟩
        · rcases List.mem_cons.mp hj with rfl | hj'
          · exact h2
          · exact h3 j hj'
        · rcases h4 with h4 | ⟨j, hj, h4⟩
          · exact Or.inr ⟨k, List.mem_cons_self k l, h4⟩
          · exact Or.inr ⟨j, List.mem_cons_of_mem k hj, h4⟩
      · rw [if_neg hk]
        obtain ⟨h1, h2, h3, h4⟩ := ih acc h
        refine ⟨h1, h2, fun j hj => ?_, ?_⟩
        · rcases List.mem_cons.mp hj with rfl | hj'
          · exact le_trans h2 (not_lt.mp hk)
          · exact h3 j hj'
        · rcases h4 with h4 | ⟨j, hj, h4⟩
          · exact Or.inl h4
          · exact Or.inr ⟨j, List.mem_cons_of_mem k hj, h4⟩

/-- Invariants of the minimum fold of `m6MinSi`: the result never exceeds the
seed, bounds every scanned sample from below, and is attained at the seed or
at a scanned index. -/
theorem minFold_spec (wTac : ℤ → ℚ) :
    ∀ (l : List ℕ) (m0 : ℚ),
      (l.foldl (fun m (k : ℕ) => min m (wTac (k : ℤ))) m0) ≤ m0 ∧
      (∀ k ∈ l, (l.foldl (fun m (k : ℕ) => min m (wTac (k : ℤ))) m0) ≤ wTac (k : ℤ)) ∧
      ((l.foldl (fun m (k : ℕ) => min m (wTac (k : ℤ))) m0) = m0 ∨
        ∃ k ∈ l, (l.foldl (fun m (k : ℕ) => min m (wTac (k : ℤ))) m0) = wTac (k : ℤ)) := by
  intro l
  induction l with
  | nil => intro m0; exact ⟨le_refl _, by simp, Or.inl rfl⟩
  | cons k l ih =>
      intro m0
      simp only [List.foldl_cons]
      obtain ⟨h1, h2, h3⟩ := ih (min m0 (wTac (k : ℤ)))
      refine ⟨le_trans h1 (min_le_left _ _), fun j hj => ?_, ?_⟩
      · rcases List.mem_cons.mp hj with rfl | hj'
        · exact le_trans h1 (min_le_right _ _)
        · exact h2 j hj'
      · rcases h3 with h3 | ⟨j, hj, h3⟩
        · rcases le_total m0 (wTac (k : ℤ)) with hle | hle
          · exact Or.inl (by rw [h3, min_eq_left hle])
          · exact Or.inr ⟨k, List.mem_cons_self k l, by rw [h3, min_eq_right hle]⟩
        · exact Or.inr ⟨j, List.mem_cons_of_mem k hj, h3⟩

/-- On a constant curve the peak loop never moves: the result is index 0. -/
theorem findPeak_const (c : ℚ) (n : ℤ) : findPeak (fun _ => c) n = (0, c) := by
  unfold findPeak
  induction List.range' 1 (n.toNat - 1) with
  | nil => rfl
  | cons k l ih =>
      simp only [List.foldl_cons, lt_self_iff_false, if_false]
      exact ih

/-- On a constant curve the minimum loop returns the constant. -/
theorem m6MinSi_const (c : ℚ) (n : ℤ) : m6MinSi (fun _ => c) n = c := by
  unfold m6MinSi
  induction List.range' 1 (n.toNat - 1) with
  | nil => rfl
  | cons k l ih =>
      simp only [List.foldl_cons, min_self]
      exact ih

/-- On a constant curve, with zero noise and cutoff equal to the constant, the
end scan never breaks: it runs its full fuel. -/
theorem bEndGo_flat (c : ℚ) :
    ∀ (fuel : ℕ) (t : ℤ), bEndGo (fun _ => c) c 0 fuel c t = t + fuel := by
  intro fuel
  induction fuel with
  | zero => intro t; simp [bEndGo]
  | succ f ih =>
      intro t
      simp only [bEndGo, ite_self, sub_zero, lt_self_iff_false, false_or, if_false]
      rw [ih (t + 1)]
      omega

/-- When no index satisfies the break test, the calibration scan runs to the
working length. -/
theorem preNGo_exhaust (f : ℤ → ℚ) (minSi thr : ℚ) (n : ℤ)
    (hall : ∀ j, ¬(f j - minSi < thr)) :
    ∀ (fuel : ℕ) (i : ℤ), fuel = (n - i).toNat →
      preNGo f minSi thr n fuel i = max i n := by
  intro fuel
  induction fuel with
  | zero =>
      intro i hf
      simp only [preNGo]
      exact (max_eq_left (by omega : n ≤ i)).symm
  | succ fl ih =>
      intro i hf
      have hn : i < n := by omega
      simp only [preNGo, if_pos hn, if_neg (hall i)]
      rw [ih (i + 1) (by omega), max_eq_right (by omega : i + 1 ≤ n),
        max_eq_right (by omega : i ≤ n)]

/-! ## Claim theorems -/

/-- C2 counterexample: a working curve whose global minimum sits at index 0
(`dipAtZero`, with the pipeline's own statistics of its pre-window `[1, 10]`:
mean 11/2, stdev 9/2, post-mean 10) yields a bolus window with
`bStart = 0 < pre_N = 2` that is nevertheless accepted (`bStart < bEnd`),
so a detected-and-accepted window does not satisfy `pre_N <= start`. -/
theorem bolus_pre_bound_cex :
    (findBolusPosition dipAtZero 7 (9 / 2) (11 / 2) 10 2 2).bStart < 2 ∧
    (findBolusPosition dipAtZero 7 (9 / 2) (11 / 2) 10 2 2).bStart <
      (findBolusPosition dipAtZero 7 (9 / 2) (11 / 2) 10 2 2).bEnd := by
  norm_num [findBolusPosition, findPeak, bStartGo, bEndGo, dipAtZero, List.range',
    min_def]

/-- C2 amended: for every working curve the end bound holds unconditionally
(`bEnd < wNumTms - post_N`), while the start bound `pre_N <= bStart` holds
whenever the peak lies at or above `pre_N`; a curve whose global minimum lies
below `pre_N` instead returns `bStart = peak < pre_N`. -/
theorem bolus_window_bounds (wTac : ℤ → ℚ) (wNumTms : ℤ) (noise pre_bl post_bl : ℚ)
    (preN postN : ℤ) :
    (findBolusPosition wTac wNumTms noise pre_bl post_bl preN postN).bEnd <
      wNumTms - postN ∧
    (preN ≤ (findPeak wTac wNumTms).1 →
      preN ≤ (findBolusPosition wTac wNumTms noise pre_bl post_bl preN postN).bStart) := by
  constructor
  · exact lt_of_le_of_lt (min_le_right _ _) (by omega)
  · intro h
    have hge := bStartGo_ge wTac (pre_bl - noise) preN
      ((findPeak wTac wNumTms).1 - preN).toNat (findPeak wTac wNumTms).1
    rw [min_eq_right h] at hge
    exact hge

/-- C3 counterexample: the perfectly flat working curve `flatTen` over 6
samples (zero noise, both baselines equal to the constant, `pre_N = 2`,
`post_N = 1`) is detected with window `(0, 4)`: `bStart < bEnd`, so the voxel
is accepted, not rejected. -/
theorem bolus_flat_accepted_cex :
    findBolusPosition flatTen 6 0 10 10 2 1 = ⟨0, 4⟩ ∧
    (findBolusPosition flatTen 6 0 10 10 2 1).bStart <
      (findBolusPosition flatTen 6 0 10 10 2 1).bEnd := by
  norm_num [findBolusPosition, findPeak, bStartGo, bEndGo, flatTen, List.range',
    min_def]

/-- C3 amended: on a perfectly flat working curve (every sample `c`, hence
zero noise and both baseline means `c`) the detector returns `bStart = 0` and
`bEnd = wNumTms - post_N - 1`; the voxel is rejected (`bEnd <= bStart`)
exactly when `wNumTms <= post_N + 1`, and otherwise is accepted with a
non-degenerate window. -/
theorem bolus_flat_window (c : ℚ) (wNumTms preN postN : ℤ) (hpre : 0 ≤ preN) :
    (findBolusPosition (fun _ => c) wNumTms 0 c c preN postN).bStart = 0 ∧
    (findBolusPosition (fun _ => c) wNumTms 0 c c preN postN).bEnd =
      wNumTms - postN - 1 ∧
    ((findBolusPosition (fun _ => c) wNumTms 0 c c preN postN).bEnd ≤
        (findBolusPosition (fun _ => c) wNumTms 0 c c preN postN).bStart ↔
      wNumTms ≤ postN + 1) := by
  have h1 : (findBolusPosition (fun _ => c) wNumTms 0 c c preN postN).bStart = 0 := by
    simp only [findBolusPosition, findPeak_const]
    rw [show ((0 : ℤ) - preN).toNat = 0 from by omega]
    rfl
  have h2 : (findBolusPosition (fun _ => c) wNumTms 0 c c preN postN).bEnd =
      wNumTms - postN - 1 := by
    simp only [findBolusPosition, findPeak_const]
    rw [sub_zero, show (0 : ℤ) + 2 = 2 from by norm_num, bEndGo_flat c _ 2]
    omega
  exact ⟨h1, h2, by rw [h1, h2]; omega⟩

/-- C3 amended witness at `c = 10`, `wNumTms = 6`, `pre_N = 2`, `post_N = 1`. -/
theorem bolus_flat_window_witness :
    (0 : ℤ) ≤ 2 ∧
    ((findBolusPosition (fun _ => (10 : ℚ)) 6 0 10 10 2 1).bStart = 0 ∧
      (findBolusPosition (fun _ => (10 : ℚ)) 6 0 10 10 2 1).bEnd = 6 - 1 - 1 ∧
      ((findBolusPosition (fun _ => (10 : ℚ)) 6 0 10 10 2 1).bEnd ≤
          (findBolusPosition (fun _ => (10 : ℚ)) 6 0 10 10 2 1).bStart ↔
        (6 : ℤ) ≤ 1 + 1)) :=
  ⟨by norm_num, bolus_flat_window 10 6 2 1 (by norm_num)⟩

/-- C4: the concentration conversion returns `-log(ratio)` exactly when
`0.01 < ratio < 1` with `ratio = corrected/S0`, returns 0 otherwise, and in
particular returns 0 at ratio exactly 1. -/
theorem concConvert_clamp_spec (logFn : ℚ → ℚ) (S0 v : ℚ) :
    ((1 / 100 < v / S0 ∧ v / S0 < 1) → concConvert logFn S0 v = -(logFn (v / S0))) ∧
    (¬(1 / 100 < v / S0 ∧ v / S0 < 1) → concConvert logFn S0 v = 0) ∧
    (v / S0 = 1 → concConvert logFn S0 v = 0) := by
  have e : (0.01 : ℚ) = 1 / 100 := by norm_num
  refine ⟨fun h => ?_, fun h => ?_, fun h => ?_⟩
  · unfold concConvert; rw [e, if_pos h]
  · unfold concConvert; rw [e, if_neg h]
  · unfold concConvert
    rw [h, if_neg (by norm_num : ¬((0.01 : ℚ) < 1 ∧ (1 : ℚ) < 1))]

/-- C9: inside the detected window the corrected curve is
`working[t] - slope * (time[t] - time[start])` with
`slope = (postMean - preMean) / (time[end] - time[start])`, and no index
outside `[start, end]` is corrected (the source buffer stays uninitialized
there, modelled as `none`). -/
theorem m6CorrTac_window_spec (wTac wTarr : ℤ → ℚ) (pre_bl post_bl : ℚ)
    (bStart bEnd : ℤ) :
    (∀ t, bStart ≤ t → t ≤ bEnd →
      m6CorrTac wTac wTarr pre_bl post_bl bStart bEnd t =
        some (wTac t - (post_bl - pre_bl) / (wTarr bEnd - wTarr bStart) *
          (wTarr t - wTarr bStart))) ∧
    (∀ t, ¬(bStart ≤ t ∧ t ≤ bEnd) →
      m6CorrTac wTac wTarr pre_bl post_bl bStart bEnd t = none) := by
  constructor
  · intro t ht1 ht2
    unfold m6CorrTac m6SlopeFactor
    rw [if_pos ⟨ht1, ht2⟩]
  · intro t ht
    unfold m6CorrTac
    rw [if_neg ht]

/-- C6: the per-voxel pipeline short-circuits: when the air classifier flags
the raw curve, or when the detected window is empty (`bStart >= bEnd`),
`M6_ModelFunc` returns failure and writes nothing (`none`): no integral is
computed for that voxel. -/
theorem m6ModelFunc_short_circuit (ext : M6Ext) (st : M6State) (tac : ℤ → ℚ) :
    (ext.isAirByMin tac st.airThresh = true → m6ModelFunc ext st tac = none) ∧
    ((m6Bolus ext st tac).bEnd ≤ (m6Bolus ext st tac).bStart →
      m6ModelFunc ext st tac = none) := by
  constructor
  · intro h
    simp [m6ModelFunc, m6VoxelIntegral, h]
  · intro h
    by_cases ha : ext.isAirByMin tac st.airThresh = true
    · simp [m6ModelFunc, m6VoxelIntegral, ha]
    · simp [m6ModelFunc, m6VoxelIntegral, ha, h]

/-- C5 counterexample: with one reference ROI curve (`c5Roi`) and
uninitialized stack value 2, initialization sets the normalization factor to
`1/2`, while running the same pipeline on the reference curve gives integral
0 — so the factor is not the reciprocal of the reference curve's own
pipeline integral. -/
theorem whiteMatterNorm_uninit_cex :
    (m6ModelInit cexExt c5Global (fun t => (t : ℚ)) 10 20 1 0 [c5Roi] 2).map
        (fun s => s.whiteMatterNorm) = some (1 / 2) ∧
    m6VoxelIntegral cexExt c5State c5Roi = some 0 ∧
    ¬((1 : ℚ) / 2 = 1 / 0) := by
  refine ⟨?_, ?_, by norm_num⟩
  · norm_num [m6ModelInit, m6InitNorm, m6CalibWindows, m6MinSi, preNGo,
      calibReadIndex, PASS_START, PRE_N_THR, POST_N_THR, makeRelativeArr,
      cexExt, c5Global, c5Roi, List.range', min_def]
  · norm_num [c5State, m6ModelInit, m6InitNorm, m6CalibWindows, m6MinSi, preNGo,
      calibReadIndex, PASS_START, PRE_N_THR, POST_N_THR, makeRelativeArr,
      cexExt, c5Global, c5Roi, m6VoxelIntegral, m6Stats, m6Bolus,
      findBolusPosition, findPeak, bStartGo, bEndGo, m6CorrTac, m6SlopeFactor,
      concConvert, calculateIntegral, List.range', min_def, Option.getD]

/-- C5 amended: with zero reference curves the factor is exactly 1 and the
written output is exactly the raw integral; with one (non-air) reference
curve the factor is the reciprocal of the uninitialized stack value — the
pipeline call on the reference curve is commented out in the source, so the
factor does not depend on the reference curve's integral. -/
theorem whiteMatterNorm_amended (ext : M6Ext) (numTms : ℤ) (u : ℚ) :
    m6InitNorm ext [] numTms u = some 1 ∧
    (∀ roi : ℤ → ℚ, ext.isAirByMin (fun t => |roi t|) (numTms : ℚ) = false →
      m6InitNorm ext [roi] numTms u = some (1 / u)) ∧
    (∀ (st : M6State) (tac : ℤ → ℚ), st.whiteMatterNorm = 1 →
      m6ModelFunc ext st tac = m6VoxelIntegral ext st tac) := by
  refine ⟨rfl, fun roi h => ?_, fun st tac h => ?_⟩
  · simp [m6InitNorm, h]
  · cases hv : m6VoxelIntegral ext st tac <;> simp [m6ModelFunc, hv, h]

/-- C8 counterexample: on a flat global curve (`c10Flat`, 8 frames, skip 0)
the calibration consumes the whole working length (`pre_N = post_N = 8`, so
`pre_N + post_N >= workingLength`) yet `M6_ModelInit` still succeeds: no
error is surfaced. -/
theorem init_flat_proceeds_cex :
    (m6ModelInit cexExt c10Flat (fun t => (t : ℚ)) 8 20 1 0 [] 0).map
        (fun s => (s.preN, s.postN)) = some (8, 8) ∧
    (8 : ℤ) + 8 ≥ 8 := by
  refine ⟨?_, by norm_num⟩
  norm_num [m6ModelInit, m6InitNorm, m6CalibWindows, m6MinSi, preNGo,
    calibReadIndex, PASS_START, PRE_N_THR, POST_N_THR, makeRelativeArr,
    cexExt, c10Flat, List.range', min_def]

/-- C8 amended: initialization has no degenerate-calibration guard: on every
flat global curve both window scans run to the full working length and
`M6_ModelInit` succeeds with `pre_N = post_N = workingLength`. -/
theorem init_flat_amended (ext : M6Ext) (c : ℚ) (absT : ℤ → ℚ) (numTms : ℤ)
    (fp0 dn : ℚ) (skip : ℤ) (u : ℚ) (h : 1 ≤ numTms - skip) :
    (m6ModelInit ext (fun _ => c) absT numTms fp0 dn skip [] u).map
        (fun s => (s.preN, s.postN)) = some (numTms - skip, numTms - skip) := by
  have hall : ∀ j : ℤ, ¬((fun _ : ℤ => c) j - c < (c - c) * PRE_N_THR) := by
    intro j; simp
  have hcal : m6CalibWindows (fun _ => c) (numTms - skip) =
      (numTms - skip, numTms - skip) := by
    simp only [m6CalibWindows, m6MinSi_const]
    rw [preNGo_exhaust (fun _ => c) c ((c - c) * PRE_N_THR) (numTms - skip) hall
        ((numTms - skip - 1).toNat) 1 rfl,
      preNGo_exhaust (fun _ => c) c ((c - c) * POST_N_THR) (numTms - skip)
        (by intro j; simp) ((numTms - skip - 1).toNat) 1 rfl,
      max_eq_right (by omega : (1 : ℤ) ≤ numTms - skip)]
  simp only [m6ModelInit, m6InitNorm, hcal, Option.map_some']

/-- C8 amended witness: flat global curve at 5, 8 frames, skip 0. -/
theorem init_flat_amended_witness :
    (1 : ℤ) ≤ 8 - 0 ∧
    (m6ModelInit cexExt (fun _ => (5 : ℚ)) (fun t => (t : ℚ)) 8 20 1 0 [] 0).map
        (fun s => (s.preN, s.postN)) = some (8 - 0, 8 - 0) :=
  ⟨by norm_num, init_flat_amended cexExt 5 (fun t => (t : ℚ)) 8 20 1 0 0 (by norm_num)⟩

/-- C10: the calibration view reads `GlobalTac` at offsets `PASS_START + t`
for `t` up to `wNumTms - 1`, i.e. up to index `NumTms + 1 - SkipTimes`; with
`SkipTimes < 2` that exceeds the last valid index `NumTms - 1` (with the
default skip 0 the last two reads are at `NumTms` and `NumTms + 1`), and the
calibration result really depends on values past the end: two global curves
agreeing on all of `[0, 5]` of a 6-frame series but differing at index 7
calibrate differently. -/
theorem calib_reads_past_end (numTms skip : ℤ) (h2 : skip < 2)
    (_h1 : 1 ≤ numTms - skip) :
    calibReadIndex (numTms - skip - 1) = numTms + 1 - skip ∧
    numTms - 1 < calibReadIndex (numTms - skip - 1) ∧
    (skip = 0 → calibReadIndex (numTms - skip - 1) = numTms + 1 ∧
      calibReadIndex (numTms - skip - 2) = numTms) ∧
    m6CalibWindows (fun t => c10Flat (calibReadIndex t)) 6 ≠
      m6CalibWindows (fun t => c10Beyond (calibReadIndex t)) 6 ∧
    (∀ i ∈ Finset.Icc (0 : ℤ) 5, c10Flat i = c10Beyond i) := by
  refine ⟨?_, ?_, fun h0 => ⟨?_, ?_⟩, ?_, ?_⟩
  · show (2 : ℤ) + (numTms - skip - 1) = numTms + 1 - skip; omega
  · show numTms - 1 < (2 : ℤ) + (numTms - skip - 1); omega
  · show (2 : ℤ) + (numTms - skip - 1) = numTms + 1; omega
  · show (2 : ℤ) + (numTms - skip - 2) = numTms; omega
  · norm_num [m6CalibWindows, m6MinSi, preNGo, calibReadIndex, PASS_START,
      PRE_N_THR, POST_N_THR, c10Flat, c10Beyond, List.range', min_def]
  · intro i hi
    rw [Finset.mem_Icc] at hi
    simp only [c10Flat, c10Beyond]
    rw [if_neg (by omega : ¬i = 7)]

/-- C10 witness at `NumTms = 6`, `SkipTimes = 0`. -/
theorem calib_reads_past_end_witness :
    (0 : ℤ) < 2 ∧ (1 : ℤ) ≤ 6 - 0 ∧
    (calibReadIndex (6 - 0 - 1) = 6 + 1 - 0 ∧
      6 - 1 < calibReadIndex (6 - 0 - 1) ∧
      ((0 : ℤ) = 0 → calibReadIndex (6 - 0 - 1) = 6 + 1 ∧
        calibReadIndex (6 - 0 - 2) = 6) ∧
      m6CalibWindows (fun t => c10Flat (calibReadIndex t)) 6 ≠
        m6CalibWindows (fun t => c10Beyond (calibReadIndex t)) 6 ∧
      (∀ i ∈ Finset.Icc (0 : ℤ) 5, c10Flat i = c10Beyond i)) :=
  ⟨by norm_num, by norm_num, calib_reads_past_end 6 0 (by norm_num) (by norm_num)⟩

/-- C1: `FindBolusPosition` performs exactly the searches the spec describes:
the peak is the global minimum of the working curve; the start index is the
result of the backward walk from the peak stopping at the first `t` with
`working[t-1] > preMean - noise`, bounded below by `pre_N`; the end index is
`min(stopIndex - 1, lastAllowedIndex - 1)` where the stop index is the first
index from `peak + 2` onward (never past `workingLength - post_N`) at which
`working[t] > postMean - noise` or `working[t] < mx - noise` for the running
maximum `mx`. -/
theorem findBolusPosition_matches_spec (wTac : ℤ → ℚ) (wNumTms : ℤ)
    (noise pre_bl post_bl : ℚ) (preN postN : ℤ) :
    PeakSpec wTac wNumTms (findPeak wTac wNumTms).1 ∧
    BolusStartSpec wTac noise pre_bl preN (findPeak wTac wNumTms).1
      (findBolusPosition wTac wNumTms noise pre_bl post_bl preN postN).bStart ∧
    BolusEndSpec wTac noise post_bl (wTac (findPeak wTac wNumTms).1)
      (findPeak wTac wNumTms).1 (wNumTms - postN)
      (findBolusPosition wTac wNumTms noise pre_bl post_bl preN postN).bEnd := by
  obtain ⟨hval, hle, hmem, hloc⟩ :=
    peakFold_spec wTac (List.range' 1 (wNumTms.toNat - 1)) (0, wTac 0) rfl
  have hval' : (findPeak wTac wNumTms).2 = wTac (findPeak wTac wNumTms).1 := hval
  refine ⟨?_, ?_, ?_⟩
  · -- peak is the global minimum
    simp only [PeakSpec]
    refine ⟨?_, ?_, ?_⟩
    · rcases hloc with h | ⟨k, hk, h⟩
      · exact le_of_eq (show (0 : ℤ) = (findPeak wTac wNumTms).1 from h.symm)
      · rw [show (findPeak wTac wNumTms).1 = (k : ℤ) from h]; omega
    · rcases hloc with h | ⟨k, hk, h⟩
      · exact Or.inl h
      · right
        rw [List.mem_range'_1] at hk
        rw [show (findPeak wTac wNumTms).1 = (k : ℤ) from h]
        omega
    · intro t ht0 htn
      rcases eq_or_lt_of_le ht0 with h0 | h1
      · calc wTac (findPeak wTac wNumTms).1
            = (findPeak wTac wNumTms).2 := hval'.symm
          _ ≤ wTac 0 := hle
          _ = wTac t := by rw [← h0]
      · have hk : t.toNat ∈ List.range' 1 (wNumTms.toNat - 1) := by
          rw [List.mem_range'_1]
          omega
        have := hmem t.toNat hk
        rw [show ((t.toNat : ℕ) : ℤ) = t from by omega] at this
        calc wTac (findPeak wTac wNumTms).1
            = (findPeak wTac wNumTms).2 := hval'.symm
          _ ≤ wTac t := this
  · -- start search matches the spec description
    show BolusStartSpec wTac noise pre_bl preN (findPeak wTac wNumTms).1
      (bStartGo wTac (pre_bl - noise) preN
        ((findPeak wTac wNumTms).1 - preN).toNat (findPeak wTac wNumTms).1)
    simp only [BolusStartSpec]
    exact bStartGo_spec wTac (pre_bl - noise) preN _ _ rfl
  · -- end search matches the spec description
    simp only [BolusEndSpec, BolusEndCond]
    have hmx0 : (findPeak wTac wNumTms).2 =
        runMax wTac (wTac (findPeak wTac wNumTms).1) ((findPeak wTac wNumTms).1 + 2)
          ((findPeak wTac wNumTms).1 + 2 - 1) := by
      rw [runMax_base wTac (wTac (findPeak wTac wNumTms).1)
        ((findPeak wTac wNumTms).1 + 2) ((findPeak wTac wNumTms).1 + 2 - 1) (by omega)]
      exact hval'
    obtain ⟨hge, hch⟩ := bEndGo_spec wTac (post_bl - noise) noise
      ((findPeak wTac wNumTms).1 + 2) (wNumTms - postN) (wTac (findPeak wTac wNumTms).1)
      ((wNumTms - postN - ((findPeak wTac wNumTms).1 + 2)).toNat)
      ((findPeak wTac wNumTms).1 + 2) (findPeak wTac wNumTms).2 rfl (le_refl _) hmx0
    exact ⟨bEndGo wTac (post_bl - noise) noise
      ((wNumTms - postN - ((findPeak wTac wNumTms).1 + 2)).toNat)
      (findPeak wTac wNumTms).2 ((findPeak wTac wNumTms).1 + 2), rfl, hge, hch⟩

/-- C7: the calibration of `M6_ModelInit` computes `MinSi` as the minimum of
the working view of the global curve, `pre_N` as the first index at or above
1 whose sample drops below `(SA - MinSi) * 0.95` above the minimum (or the
whole working length when none does), and `post_N` symmetrically on the
backward view with threshold `(SB - MinSi) * 0.95`; the embedding is a pure
function of the curve, which is not mutated. -/
theorem m6CalibWindows_spec (wTac : ℤ → ℚ) (n : ℤ) (hn : 3 ≤ n) :
    MinSiSpec wTac n (m6MinSi wTac n) ∧
    CalibScanSpec wTac (m6MinSi wTac n) ((wTac 0 - m6MinSi wTac n) * PRE_N_THR) n
      (m6CalibWindows wTac n).1 ∧
    CalibScanSpec (fun j => wTac (n - 1 - j)) (m6MinSi wTac n)
      ((wTac (n - 1) - m6MinSi wTac n) * POST_N_THR) n (m6CalibWindows wTac n).2 := by
  obtain ⟨hle, hmem, hattain⟩ :=
    minFold_spec wTac (List.range' 1 (n.toNat - 1)) (wTac 0)
  refine ⟨⟨?_, ?_⟩, ?_, ?_⟩
  · -- MinSi bounds every sample
    intro t ht0 htn
    rcases eq_or_lt_of_le ht0 with h0 | h1
    · rw [← h0]; exact hle
    · have hk : t.toNat ∈ List.range' 1 (n.toNat - 1) := by
        rw [List.mem_range'_1]; omega
      have := hmem t.toNat hk
      rw [show ((t.toNat : ℕ) : ℤ) = t from by omega] at this
      exact this
  · -- MinSi is attained
    rcases hattain with h | ⟨k, hk, h⟩
    · exact ⟨0, le_refl 0, by omega, h⟩
    · rw [List.mem_range'_1] at hk
      exact ⟨(k : ℤ), by omega, by omega, h⟩
  · -- the pre_N scan
    obtain ⟨hge, hch⟩ := preNGo_spec wTac (m6MinSi wTac n)
      ((wTac 0 - m6MinSi wTac n) * PRE_N_THR) n ((n - 1).toNat) 1 rfl
    simp only [CalibScanSpec]
    rcases hch with ⟨h1, h2, h3⟩ | ⟨h1, h2⟩
    · exact Or.inl ⟨hge, h1, h2, h3⟩
    · rw [max_eq_right (by omega : (1 : ℤ) ≤ n)] at h1
      exact Or.inr ⟨h1, h2⟩
  · -- the post_N scan on the reversed view
    obtain ⟨hge, hch⟩ := preNGo_spec (fun j => wTac (n - 1 - j)) (m6MinSi wTac n)
      ((wTac (n - 1) - m6MinSi wTac n) * POST_N_THR) n ((n - 1).toNat) 1 rfl
    simp only [CalibScanSpec]
    rcases hch with ⟨h1, h2, h3⟩ | ⟨h1, h2⟩
    · exact Or.inl ⟨hge, h1, h2, h3⟩
    · rw [max_eq_right (by omega : (1 : ℤ) ≤ n)] at h1
      exact Or.inr ⟨h1, h2⟩

/-- C7 witness: the working view of `c5Global` over 10 frames (windows
`pre_N = 2`, `post_N = 4`). -/
theorem m6CalibWindows_spec_witness :
    (3 : ℤ) ≤ 10 ∧
    (MinSiSpec (fun t => c5Global (calibReadIndex t)) 10
        (m6MinSi (fun t => c5Global (calibReadIndex t)) 10) ∧
      CalibScanSpec (fun t => c5Global (calibReadIndex t))
        (m6MinSi (fun t => c5Global (calibReadIndex t)) 10)
        (((fun t => c5Global (calibReadIndex t)) 0 -
          m6MinSi (fun t => c5Global (calibReadIndex t)) 10) * PRE_N_THR) 10
        (m6CalibWindows (fun t => c5Global (calibReadIndex t)) 10).1 ∧
      CalibScanSpec (fun j => (fun t => c5Global (calibReadIndex t)) (10 - 1 - j))
        (m6MinSi (fun t => c5Global (calibReadIndex t)) 10)
        (((fun t => c5Global (calibReadIndex t)) (10 - 1) -
          m6MinSi (fun t => c5Global (calibReadIndex t)) 10) * POST_N_THR) 10
        (m6CalibWindows (fun t => c5Global (calibReadIndex t)) 10).2) :=
  ⟨by norm_num, m6CalibWindows_spec (fun t => c5Global (calibReadIndex t)) 10 (by norm_num)⟩

end Model6
